import Mathlib

/-!
Shallow embedding of `src/pluggy/hooks.py`: the hook specification marker,
the hook caller with its two implementation chains, and the operations
`_add_hookimpl`, `_remove_plugin`, `set_specification`, `__call__`,
`call_historic`, `call_extra` and `_maybe_apply_history`.  Callables are
represented by identifiers resolved through an environment `Env`; an
absent result (a `None` return) is `Option.none`; a raised exception is
the `Except.error` case.
-/

/-- Keyword arguments of one hook call: a finite name-to-value mapping. -/
abbrev Kwargs := List (String × Int)

/-- Resolution of a callable identifier: given the call kwargs it either
raises (`Except.error`) or returns an optional (possibly absent) result. -/
abbrev Env := Nat → Kwargs → Except String (Option Int)

/-- Declared-parameter extraction for a callable identifier (the result of
the external `varnames` introspection for that callable). -/
abbrev Varnames := Nat → List String

/-- One registered hook implementation: the record built by
`HookImpl.__init__` (plugin identity, display name, callable, declared
parameter names, and the four behavior flags). -/
structure HookImpl where
  plugin : Option Nat
  plugin_name : String
  function : Nat
  argnames : List String
  hookwrapper : Bool
  tryfirst : Bool
  trylast : Bool
  optionalhook : Bool
deriving DecidableEq

/-- Options attached to a hook specification by `HookspecMarker.__call__`
(`warn_on_impl` is omitted: it only feeds the warning layer). -/
structure HookspecOpts where
  firstresult : Bool
  historic : Bool
deriving DecidableEq

/-- State of one `_HookCaller`: the two chains, whether a specification is
bound, its recorded options, the optional call history (present exactly
when the hook is historic, mirroring `hasattr(self, "_call_history")`),
and whether `self.multicall` was switched to `_legacymulticall`. -/
structure HookCaller where
  name : String
  wrappers : List HookImpl
  nonwrappers : List HookImpl
  spec_bound : Bool
  spec_historic : Bool
  spec_firstresult : Bool
  call_history : Option (List (Kwargs × Option Nat))
  multicall_legacy : Bool
deriving DecidableEq

/-- Truth of an `Except` computation having succeeded. -/
def isOkE {α : Type} : Except String α → Bool
  | .ok _ => true
  | .error _ => false

/-- Body of `HookspecMarker.__call__` (`setattr_hookspec_opts`): a
historic firstresult hook is rejected with `ValueError`, any other flag
combination is accepted. -/
def setattr_hookspec_opts (firstresult historic : Bool) : Except String HookspecOpts :=
  if historic && firstresult then .error "cannot have a historic firstresult hook"
  else .ok { firstresult := firstresult, historic := historic }

/-- A `_HookCaller` as constructed by `_HookCaller.__init__` with no
specification: empty chains, no history, default `_multicall` dispatcher. -/
def emptyCaller (name : String) : HookCaller :=
  { name := name, wrappers := [], nonwrappers := [], spec_bound := false,
    spec_historic := false, spec_firstresult := false, call_history := none,
    multicall_legacy := false }

/-- Implementation of `_HookCaller.set_specification`: asserts that no
specification is bound yet, records the spec options, and creates the
(empty) call history when the specification is historic. -/
def set_specification (c : HookCaller) (opts : HookspecOpts) : Except String HookCaller :=
  if c.spec_bound then .error "AssertionError: specification already set"
  else .ok { c with
    spec_bound := true,
    spec_historic := opts.historic,
    spec_firstresult := opts.firstresult,
    call_history := if opts.historic then some [] else c.call_history }

/-- Backward scan of `_add_hookimpl` for a normal implementation, acting
on the reversed list: skip the trailing run of `tryfirst` entries and
place the new implementation right behind it (the `while i >= 0 and
methods[i].tryfirst` loop followed by `methods.insert(i + 1, hookimpl)`). -/
def insertNormalFromEnd (impl : HookImpl) : List HookImpl → List HookImpl
  | [] => [impl]
  | m :: rest =>
    if m.tryfirst then m :: insertNormalFromEnd impl rest
    else impl :: m :: rest

/-- Insertion of a normal (neither tryfirst nor trylast) implementation:
after every entry except the trailing `tryfirst` run. -/
def insertNormal (impl : HookImpl) (methods : List HookImpl) : List HookImpl :=
  (insertNormalFromEnd impl methods.reverse).reverse

/-- Three insertion branches of `_add_hookimpl`: a `trylast` entry goes to
index 0, a `tryfirst` entry is appended, anything else goes before the
trailing `tryfirst` run. -/
def insertMethod (impl : HookImpl) (methods : List HookImpl) : List HookImpl :=
  if impl.trylast then impl :: methods
  else if impl.tryfirst then methods ++ [impl]
  else insertNormal impl methods

/-- Implementation of `_HookCaller._add_hookimpl`: pick the wrapper or
non-wrapper chain, insert, and switch the caller to the legacy dispatcher
when the implementation declares a `__multicall__` parameter. -/
def addHookimpl (c : HookCaller) (impl : HookImpl) : HookCaller :=
  let c2 :=
    if impl.hookwrapper then { c with wrappers := insertMethod impl c.wrappers }
    else { c with nonwrappers := insertMethod impl c.nonwrappers }
  if "__multicall__" ∈ impl.argnames then { c2 with multicall_legacy := true }
  else c2

/-- Inner `remove` helper of `_HookCaller._remove_plugin`: delete the
first entry whose `plugin` matches, or report that none does. -/
def removeFirst (plugin : Option Nat) : List HookImpl → Option (List HookImpl)
  | [] => none
  | m :: rest =>
    if m.plugin = plugin then some rest
    else (removeFirst plugin rest).map (fun r => m :: r)

/-- Implementation of `_HookCaller._remove_plugin`: try the wrapper chain
first, then the non-wrapper chain, and raise `ValueError` when the plugin
owns no entry in either. -/
def removePlugin (c : HookCaller) (plugin : Option Nat) : Except String HookCaller :=
  match removeFirst plugin c.wrappers with
  | some ws => .ok { c with wrappers := ws }
  | none =>
    match removeFirst plugin c.nonwrappers with
    | some ns => .ok { c with nonwrappers := ns }
    | none => .error "plugin not found"

/-- Removal as claim C2 words it, searching the non-wrapper chain before
the wrapper chain; stated only to compare against `removePlugin`, whose
source searches the chains in the opposite order. -/
def removePluginSpecOrder (c : HookCaller) (plugin : Option Nat) : Except String HookCaller :=
  match removeFirst plugin c.nonwrappers with
  | some ns => .ok { c with nonwrappers := ns }
  | none =>
    match removeFirst plugin c.wrappers with
    | some ws => .ok { c with wrappers := ws }
    | none => .error "plugin not found"

/-- Restriction of the call kwargs to the parameters an implementation
declares (spec section 4.2: each implementation receives only the subset
of kwargs matching its declared parameters). -/
def argFilter (impl : HookImpl) (kwargs : Kwargs) : Kwargs :=
  kwargs.filter (fun p => impl.argnames.contains p.1)

/-- Modelled from the spec: accumulator loop of the multicall dispatcher
(`_multicall` lives in `src/pluggy/callers.py`, which is not among the
provided sources).  Per spec section 4.2, every non-wrapper implementation
runs in list order with the subset of kwargs matching its declared
parameters, each non-absent result is collected most-recently-executed
first, and an exception raised by an implementation propagates.  Wrapper
before/after phases and the firstResult short-circuit are not modelled:
no claim below depends on them, and wrapper entries contribute no
results. -/
def multicallGo (env : Env) (kwargs : Kwargs) :
    List HookImpl → List Int → Except String (List Int)
  | [], acc => .ok acc
  | impl :: rest, acc =>
    if impl.hookwrapper then multicallGo env kwargs rest acc
    else
      match env impl.function (argFilter impl kwargs) with
      | .error e => .error e
      | .ok none => multicallGo env kwargs rest acc
      | .ok (some v) => multicallGo env kwargs rest (v :: acc)

/-- Modelled from the spec: entry point of the multicall dispatcher. -/
def multicall (env : Env) (impls : List HookImpl) (kwargs : Kwargs) :
    Except String (List Int) :=
  multicallGo env kwargs impls []

/-- Implementation of `_HookCaller.__call__` restricted to keyword
arguments: asserts the hook is not historic and dispatches over
`self._nonwrappers + self._wrappers` (the positional-argument `TypeError`
and the missing-argument warning are diagnostics no claim touches). -/
def callHook (env : Env) (c : HookCaller) (kwargs : Kwargs) : Except String (List Int) :=
  if c.call_history.isSome then .error "AssertionError: historic hook called directly"
  else multicall env (c.nonwrappers ++ c.wrappers) kwargs

/-- Implementation of `_HookCaller.call_historic`: append
`(kwargs or \x7b\x7d, proc)` to the call history, dispatch over the full
chain, and feed each result to `proc` when one is given; the missing
`_call_history` attribute of a non-historic hook is the `AttributeError`
case.  The first component is the trace of callback invocations, the
second the resulting caller state. -/
def call_historic (env : Env) (c : HookCaller) (proc : Option Nat)
    (kwargs : Option Kwargs) : Except String (List (Nat × Int)) × HookCaller :=
  match c.call_history with
  | none => (.error "AttributeError: _call_history", c)
  | some hist =>
    let c2 := { c with call_history := some (hist ++ [(kwargs.getD [], proc)]) }
    match multicall env (c.nonwrappers ++ c.wrappers) (kwargs.getD []) with
    | .error e => (.error e, c2)
    | .ok res =>
      match proc with
      | none => (.ok [], c2)
      | some p => (.ok (res.map (fun v => (p, v))), c2)

/-- Transient implementation record `HookImpl(None, "<temp>", method,
opts)` built by `call_extra` with every flag off. -/
def tempImpl (vn : Varnames) (method : Nat) : HookImpl :=
  { plugin := none, plugin_name := "<temp>", function := method,
    argnames := vn method, hookwrapper := false, tryfirst := false,
    trylast := false, optionalhook := false }

/-- Implementation of `_HookCaller.call_extra`: snapshot both chains, add
each extra callable as an ordinary implementation, perform one call, and
restore the snapshot unconditionally (the `finally` block runs on success
and on failure alike). -/
def call_extra (env : Env) (vn : Varnames) (c : HookCaller) (methods : List Nat)
    (kwargs : Kwargs) : Except String (List Int) × HookCaller :=
  let c2 := methods.foldl (fun acc m => addHookimpl acc (tempImpl vn m)) c
  (callHook env c2 kwargs,
   { c2 with nonwrappers := c.nonwrappers, wrappers := c.wrappers })

/-- Replay loop of `_HookCaller._maybe_apply_history`: for each recorded
`(kwargs, proc)` pair in order, dispatch over the single new
implementation; when the dispatch produced a result and a callback is
stored, invoke the callback on the first result.  The accumulator holds
the callback invocations emitted so far, newest first. -/
def maybeApplyHistoryGo (env : Env) (method : HookImpl) :
    List (Kwargs × Option Nat) → List (Nat × Int) → Except String (List (Nat × Int))
  | [], acc => .ok acc.reverse
  | e :: rest, acc =>
    match multicall env [method] e.1 with
    | .error err => .error err
    | .ok res =>
      match res, e.2 with
      | v :: _, some p => maybeApplyHistoryGo env method rest ((p, v) :: acc)
      | _, _ => maybeApplyHistoryGo env method rest acc

/-- Implementation of `_HookCaller._maybe_apply_history`: a historic
caller replays its recorded calls against the single new implementation; a
non-historic caller does nothing.  The caller state itself is left
untouched by the source, so it is returned unchanged. -/
def maybe_apply_history (env : Env) (c : HookCaller) (method : HookImpl) :
    Except String (List (Nat × Int)) × HookCaller :=
  match c.call_history with
  | none => (.ok [], c)
  | some hist => (maybeApplyHistoryGo env method hist [], c)

/-- Modelled from the spec: `addImplementation` of the manager layer (the
`PluginManager` code that calls `_add_hookimpl` and then
`_maybe_apply_history` is not among the provided sources); spec section
4.3 has it insert the implementation and, when the caller is historic,
immediately replay recorded history against that single implementation. -/
def addImplementation (env : Env) (c : HookCaller) (method : HookImpl) :
    Except String (List (Nat × Int)) × HookCaller :=
  maybe_apply_history env (addHookimpl c method) method

/-- Non-wrapper registrations that take the `trylast` insertion branch. -/
def nonWrapperTrylast (regs : List HookImpl) : List HookImpl :=
  regs.filter (fun i => !i.hookwrapper && i.trylast)

/-- Non-wrapper registrations that take the normal insertion branch. -/
def nonWrapperNormal (regs : List HookImpl) : List HookImpl :=
  regs.filter (fun i => !i.hookwrapper && !i.trylast && !i.tryfirst)

/-- Non-wrapper registrations that take the `tryfirst` insertion branch. -/
def nonWrapperTryfirst (regs : List HookImpl) : List HookImpl :=
  regs.filter (fun i => !i.hookwrapper && !i.trylast && i.tryfirst)

/-- Expected callback invocations of a history replay: one per recorded
call that both stores a callback and makes the implementation produce a
non-absent result. -/
def replayEvents (env : Env) (method : HookImpl)
    (hist : List (Kwargs × Option Nat)) : List (Nat × Int) :=
  hist.filterMap (fun e =>
    match e.2, env method.function (argFilter method e.1) with
    | some p, .ok (some v) => some (p, v)
    | _, _ => none)

/-- Projection of a successful removal result, for counterexample
statements that compare two removal strategies. -/
def okCaller : Except String HookCaller -> Option HookCaller
  | .ok c => some c
  | .error _ => none

/-- Convenience constructor for concrete implementation records. -/
def mkImpl (pl : Option Nat) (nm : String) (fn : Nat) (args : List String)
    (hw tf tl : Bool) : HookImpl :=
  { plugin := pl, plugin_name := nm, function := fn, argnames := args,
    hookwrapper := hw, tryfirst := tf, trylast := tl, optionalhook := false }

/-- Concrete trylast non-wrapper implementation. -/
def tImplA : HookImpl := mkImpl (some 1) "tA" 10 [] false false true

/-- Second concrete trylast non-wrapper implementation. -/
def tImplB : HookImpl := mkImpl (some 2) "tB" 11 [] false false true

/-- Concrete normal non-wrapper implementation. -/
def nImplA : HookImpl := mkImpl (some 3) "nA" 12 [] false false false

/-- Concrete tryfirst non-wrapper implementation. -/
def fImplA : HookImpl := mkImpl (some 4) "fA" 13 [] false true false

/-- Concrete wrapper implementation. -/
def wImplA : HookImpl := mkImpl (some 5) "wA" 14 [] true false false

/-- Concrete registration sequence interleaving a wrapper with the three
non-wrapper kinds. -/
def regsW : List HookImpl := [tImplA, nImplA, wImplA, tImplB, fImplA]

/-- Environment in which every callable returns an absent result. -/
def envZero : Env := fun _ _ => .ok none

/-- Wrapper implementation owned by plugin 1. -/
def wImplP : HookImpl := mkImpl (some 1) "wP" 20 [] true false false

/-- Non-wrapper implementation owned by the same plugin 1. -/
def nImplP : HookImpl := mkImpl (some 1) "nP" 21 [] false false false

/-- Caller in which plugin 1 owns one wrapper and one non-wrapper entry. -/
def cexC2 : HookCaller := { emptyCaller "h" with wrappers := [wImplP], nonwrappers := [nImplP] }

/-- State after the removal that the source actually performs on `cexC2`. -/
def cexC2res : HookCaller := { cexC2 with wrappers := [] }

/-- Implementation declaring one parameter `x`, backed by callable 0. -/
def implC4 : HookImpl := mkImpl (some 9) "m4" 0 ["x"] false false false

/-- Environment in which callable 0 doubles its `x` argument. -/
def envC4 : Env := fun f kw =>
  if f = 0 then
    match kw.lookup "x" with
    | some v => .ok (some (2 * v))
    | none => .ok none
  else .ok none

/-- One recorded historic call with kwargs `x = 1` and callback 5. -/
def histC4 : List (Kwargs × Option Nat) := [([("x", 1)], some 5)]

/-- Historic caller holding that one recorded call. -/
def cC4 : HookCaller := { emptyCaller "h" with call_history := some histC4 }

/-- Implementation with tryfirst and trylast both set. -/
def bothImpl : HookImpl := mkImpl (some 6) "bt" 30 [] false true true

/-- Specification options of a historic, non-firstresult hook. -/
def histOpts : HookspecOpts := { firstresult := false, historic := true }

/-- Caller state after binding `histOpts` onto a fresh caller named `h`. -/
def boundFresh : HookCaller :=
  { name := "h", wrappers := [], nonwrappers := [], spec_bound := true,
    spec_historic := true, spec_firstresult := false, call_history := some [],
    multicall_legacy := false }

/-- Environment in which every callable raises. -/
def envRaise : Env := fun _ _ => .error "boom"

/-- Plain non-wrapper implementation backed by callable 1. -/
def rImpl : HookImpl := mkImpl (some 7) "r" 1 [] false false false

/-- Historic caller with one non-wrapper implementation and empty history. -/
def cC8 : HookCaller := { emptyCaller "h" with call_history := some [], nonwrappers := [rImpl] }

/-- First of two non-wrapper implementations owned by plugin 2. -/
def nP2a : HookImpl := mkImpl (some 2) "p2a" 40 [] false false false

/-- Second non-wrapper implementation owned by plugin 2. -/
def nP2b : HookImpl := mkImpl (some 2) "p2b" 41 [] false false false

/-- Caller in which plugin 2 owns two non-wrapper entries. -/
def cC10 : HookCaller := { emptyCaller "h" with nonwrappers := [nP2a, nP2b] }

/-- State after removing plugin 2 once from `cC10`. -/
def cC10r : HookCaller := { cC10 with nonwrappers := [nP2b] }

theorem addHookimpl_nonwrappers (c : HookCaller) (impl : HookImpl) :
    (addHookimpl c impl).nonwrappers
      = if impl.hookwrapper then c.nonwrappers else insertMethod impl c.nonwrappers := by
  unfold addHookimpl
  by_cases hw : impl.hookwrapper <;>
    by_cases hm : "__multicall__" ∈ impl.argnames <;> simp [hw, hm]

theorem addHookimpl_wrappers (c : HookCaller) (impl : HookImpl) :
    (addHookimpl c impl).wrappers
      = if impl.hookwrapper then insertMethod impl c.wrappers else c.wrappers := by
  unfold addHookimpl
  by_cases hw : impl.hookwrapper <;>
    by_cases hm : "__multicall__" ∈ impl.argnames <;> simp [hw, hm]

theorem addHookimpl_call_history (c : HookCaller) (impl : HookImpl) :
    (addHookimpl c impl).call_history = c.call_history := by
  unfold addHookimpl
  by_cases hw : impl.hookwrapper <;>
    by_cases hm : "__multicall__" ∈ impl.argnames <;> simp [hw, hm]

theorem addHookimpl_multicall_legacy (c : HookCaller) (impl : HookImpl) :
    (addHookimpl c impl).multicall_legacy
      = (c.multicall_legacy || decide ("__multicall__" ∈ impl.argnames)) := by
  unfold addHookimpl
  by_cases hw : impl.hookwrapper <;>
    by_cases hm : "__multicall__" ∈ impl.argnames <;> simp [hw, hm]

theorem foldl_addHookimpl_call_history (regs : List HookImpl) (c : HookCaller) :
    (regs.foldl addHookimpl c).call_history = c.call_history := by
  induction regs generalizing c with
  | nil => rfl
  | cons r rs ih => rw [List.foldl_cons, ih, addHookimpl_call_history]

theorem insertNormalFromEnd_skip (impl : HookImpl) (F R : List HookImpl)
    (hF : ∀ x ∈ F, x.tryfirst = true) :
    insertNormalFromEnd impl (F ++ R) = F ++ insertNormalFromEnd impl R := by
  induction F with
  | nil => rfl
  | cons f fs ih =>
    have hf : f.tryfirst = true := hF f (by simp)
    have ih2 := ih (fun x hx => hF x (by simp [hx]))
    simp [insertNormalFromEnd, hf, ih2]

theorem insertNormal_split (impl : HookImpl) (P F : List HookImpl)
    (hP : ∀ x ∈ P, x.tryfirst = false) (hF : ∀ x ∈ F, x.tryfirst = true) :
    insertNormal impl (P ++ F) = P ++ impl :: F := by
  unfold insertNormal
  rw [List.reverse_append]
  rw [insertNormalFromEnd_skip impl F.reverse P.reverse
    (fun x hx => hF x (List.mem_reverse.mp hx))]
  cases hrev : P.reverse with
  | nil =>
    have hPnil : P = [] := by simpa using congrArg List.reverse hrev
    subst hPnil
    simp [insertNormalFromEnd]
  | cons b R =>
    have hPb : P = (b :: R).reverse := by simpa using congrArg List.reverse hrev
    have hb : b.tryfirst = false := by
      refine hP b ?_
      rw [hPb]
      simp
    simp only [insertNormalFromEnd, hb, Bool.false_eq_true, if_false]
    rw [hPb]
    simp

theorem removeFirst_none_iff (p : Option Nat) (l : List HookImpl) :
    removeFirst p l = none ↔ ∀ x ∈ l, x.plugin ≠ p := by
  induction l with
  | nil => simp [removeFirst]
  | cons m rest ih =>
    by_cases hm : m.plugin = p
    · simp [removeFirst, hm]
    · simp only [removeFirst, hm, if_false, Option.map_eq_none']
      constructor
      · intro h x hx
        rcases List.mem_cons.mp hx with hx | hx
        · rw [hx]; exact hm
        · exact (ih.mp h) x hx
      · intro h
        exact ih.mpr (fun x hx => h x (List.mem_cons_of_mem m hx))

theorem removeFirst_some_decomp (p : Option Nat) (l l2 : List HookImpl)
    (h : removeFirst p l = some l2) :
    ∃ pre m post, l = pre ++ m :: post ∧ m.plugin = p ∧
      (∀ x ∈ pre, x.plugin ≠ p) ∧ l2 = pre ++ post := by
  induction l generalizing l2 with
  | nil => simp [removeFirst] at h
  | cons m rest ih =>
    by_cases hm : m.plugin = p
    · simp only [removeFirst, hm, if_true] at h
      exact ⟨[], m, rest, by simp, hm, by simp, by simpa using h.symm⟩
    · simp only [removeFirst, hm, if_false, Option.map_eq_some'] at h
      obtain ⟨r, hr, hl2⟩ := h
      obtain ⟨pre, m2, post, hrest, hm2, hpre, hr2⟩ := ih r hr
      refine ⟨m :: pre, m2, post, by simp [hrest], hm2, ?_, by simp [hl2.symm, hr2]⟩
      intro x hx
      rcases List.mem_cons.mp hx with hx | hx
      · rw [hx]; exact hm
      · exact hpre x hx

theorem mem_nonWrapperTrylast {x : HookImpl} {regs : List HookImpl}
    (hx : x ∈ nonWrapperTrylast regs) :
    x ∈ regs ∧ x.hookwrapper = false ∧ x.trylast = true := by
  have h := List.mem_filter.mp hx
  have h2 := h.2
  simp only [Bool.and_eq_true, Bool.not_eq_true'] at h2
  exact ⟨h.1, h2.1, h2.2⟩

theorem mem_nonWrapperNormal {x : HookImpl} {regs : List HookImpl}
    (hx : x ∈ nonWrapperNormal regs) :
    x ∈ regs ∧ x.hookwrapper = false ∧ x.trylast = false ∧ x.tryfirst = false := by
  have h := List.mem_filter.mp hx
  have h2 := h.2
  simp only [Bool.and_eq_true, Bool.not_eq_true'] at h2
  exact ⟨h.1, h2.1.1, h2.1.2, h2.2⟩

theorem mem_nonWrapperTryfirst {x : HookImpl} {regs : List HookImpl}
    (hx : x ∈ nonWrapperTryfirst regs) :
    x ∈ regs ∧ x.hookwrapper = false ∧ x.trylast = false ∧ x.tryfirst = true := by
  have h := List.mem_filter.mp hx
  have h2 := h.2
  simp only [Bool.and_eq_true, Bool.not_eq_true'] at h2
  exact ⟨h.1, h2.1.1, h2.1.2, h2.2⟩

theorem nonwrappers_shape_aux (nm : String) :
    ∀ regs : List HookImpl,
      (∀ i ∈ regs, i.tryfirst = false ∨ i.trylast = false) →
      (regs.foldl addHookimpl (emptyCaller nm)).nonwrappers
        = (nonWrapperTrylast regs).reverse ++ nonWrapperNormal regs
            ++ nonWrapperTryfirst regs := by
  intro regs
  induction regs using List.reverseRecOn with
  | nil => intro _; rfl
  | append_singleton rs r ih =>
    intro hexcl
    have hexclrs : ∀ i ∈ rs, i.tryfirst = false ∨ i.trylast = false :=
      fun i hi => hexcl i (by simp [hi])
    have IH := ih hexclrs
    rw [List.foldl_append, List.foldl_cons, List.foldl_nil, addHookimpl_nonwrappers, IH]
    by_cases hw : r.hookwrapper
    · rw [if_pos hw]
      simp [nonWrapperTrylast, nonWrapperNormal, nonWrapperTryfirst,
        List.filter_append, hw]
    · rw [if_neg hw]
      unfold insertMethod
      by_cases htl : r.trylast
      · rw [if_pos htl]
        simp [nonWrapperTrylast, nonWrapperNormal, nonWrapperTryfirst,
          List.filter_append, hw, htl]
      · rw [if_neg htl]
        by_cases htf : r.tryfirst
        · rw [if_pos htf]
          simp [nonWrapperTrylast, nonWrapperNormal, nonWrapperTryfirst,
            List.filter_append, hw, htl, htf]
        · rw [if_neg htf]
          have hsplit := insertNormal_split r
            ((nonWrapperTrylast rs).reverse ++ nonWrapperNormal rs)
            (nonWrapperTryfirst rs)
            (by
              intro x hx
              rcases List.mem_append.mp hx with hx | hx
              · have hx2 := mem_nonWrapperTrylast (List.mem_reverse.mp hx)
                rcases hexclrs x hx2.1 with h | h
                · exact h
                · rw [hx2.2.2] at h; cases h
              · exact (mem_nonWrapperNormal hx).2.2.2)
            (fun x hx => (mem_nonWrapperTryfirst hx).2.2.2)
          rw [hsplit]
          simp [nonWrapperTrylast, nonWrapperNormal, nonWrapperTryfirst,
            List.filter_append, hw, htl, htf]

theorem multicall_singleton (env : Env) (m : HookImpl) (kw : Kwargs)
    (hw : m.hookwrapper = false) :
    multicall env [m] kw
      = match env m.function (argFilter m kw) with
        | .error e => .error e
        | .ok none => .ok []
        | .ok (some v) => .ok [v] := by
  unfold multicall multicallGo
  rw [hw]
  rcases env m.function (argFilter m kw) with e | o
  · rfl
  · cases o <;> rfl

theorem maybeApplyHistoryGo_spec (env : Env) (method : HookImpl)
    (hw : method.hookwrapper = false) :
    ∀ (hist : List (Kwargs × Option Nat)) (acc : List (Nat × Int)),
      (∀ e ∈ hist, isOkE (env method.function (argFilter method e.1)) = true) →
      maybeApplyHistoryGo env method hist acc
        = .ok (acc.reverse ++ replayEvents env method hist) := by
  intro hist
  induction hist with
  | nil => intro acc _; simp [maybeApplyHistoryGo, replayEvents]
  | cons e rest ih =>
    intro acc hok
    have hrest : ∀ x ∈ rest, isOkE (env method.function (argFilter method x.1)) = true :=
      fun x hx => hok x (List.mem_cons_of_mem e hx)
    have he := hok e (List.mem_cons_self e rest)
    unfold maybeApplyHistoryGo
    rw [multicall_singleton env method e.1 hw]
    rcases hres : env method.function (argFilter method e.1) with err | o
    · rw [hres] at he; simp [isOkE] at he
    · cases o with
      | none => cases hproc : e.2 <;> simp [replayEvents, hres, hproc, ih acc hrest]
      | some v =>
        cases hproc : e.2 with
        | none => simp [replayEvents, hres, hproc, ih acc hrest]
        | some p => simp [replayEvents, hres, hproc, ih ((p, v) :: acc) hrest]

/-- C1 is false as stated: two trylast registrations end up in reverse
registration order in the non-wrapper list (`insert(0, ...)` puts the
newer one in front), so the list is not the trylast block in registration
order followed by the normal and tryfirst blocks. -/
theorem c1_counterexample :
    ([tImplA, tImplB].foldl addHookimpl (emptyCaller "h")).nonwrappers
      ≠ nonWrapperTrylast [tImplA, tImplB] ++ nonWrapperNormal [tImplA, tImplB]
          ++ nonWrapperTryfirst [tImplA, tImplB] := by decide

/-- C1 (amended): for every registration sequence in which no
implementation carries both priority flags, the non-wrapper list realises
the order trylast block in reverse registration order, then normal block
and tryfirst block in registration order, independent of interleaved
wrapper registrations; and a call dispatches over the sequence
nonwrappers ++ wrappers. -/
theorem c1_nonwrapper_order (nm : String) (regs : List HookImpl) (env : Env)
    (kwargs : Kwargs)
    (hexcl : regs.all (fun i => !i.tryfirst || !i.trylast) = true) :
    (regs.foldl addHookimpl (emptyCaller nm)).nonwrappers
      = (nonWrapperTrylast regs).reverse ++ nonWrapperNormal regs
          ++ nonWrapperTryfirst regs
    ∧ callHook env (regs.foldl addHookimpl (emptyCaller nm)) kwargs
      = multicall env ((regs.foldl addHookimpl (emptyCaller nm)).nonwrappers
          ++ (regs.foldl addHookimpl (emptyCaller nm)).wrappers) kwargs := by
  constructor
  · apply nonwrappers_shape_aux
    intro i hi
    have h := List.all_eq_true.mp hexcl i hi
    simp only [Bool.or_eq_true, Bool.not_eq_true'] at h
    exact h
  · unfold callHook
    rw [foldl_addHookimpl_call_history]
    rfl

/-- Witness for `c1_nonwrapper_order` on a concrete interleaved
registration sequence. -/
theorem c1_nonwrapper_order_witness :
    regsW.all (fun i => !i.tryfirst || !i.trylast) = true
    ∧ ((regsW.foldl addHookimpl (emptyCaller "h")).nonwrappers
        = (nonWrapperTrylast regsW).reverse ++ nonWrapperNormal regsW
            ++ nonWrapperTryfirst regsW
      ∧ callHook envZero (regsW.foldl addHookimpl (emptyCaller "h")) []
        = multicall envZero ((regsW.foldl addHookimpl (emptyCaller "h")).nonwrappers
            ++ (regsW.foldl addHookimpl (emptyCaller "h")).wrappers) []) :=
  ⟨by decide, c1_nonwrapper_order "h" regsW envZero [] (by decide)⟩

/-- C3: call_extra restores both chains unconditionally (the state it
returns carries the original non-wrapper and wrapper sequences whatever
the inner invocation produced), and the single invocation it performs
runs on the chain obtained by adding each extra callable as a
non-wrapper implementation with no priority flags. -/
theorem c3_call_extra_transactional (env : Env) (vn : Varnames) (c : HookCaller)
    (methods : List Nat) (kwargs : Kwargs) :
    (call_extra env vn c methods kwargs).2.nonwrappers = c.nonwrappers
    ∧ (call_extra env vn c methods kwargs).2.wrappers = c.wrappers
    ∧ (call_extra env vn c methods kwargs).1
        = callHook env (methods.foldl (fun acc m => addHookimpl acc (tempImpl vn m)) c)
            kwargs
    ∧ ∀ m, (tempImpl vn m).hookwrapper = false ∧ (tempImpl vn m).tryfirst = false
        ∧ (tempImpl vn m).trylast = false :=
  ⟨rfl, rfl, rfl, fun _ => ⟨rfl, rfl, rfl⟩⟩

/-- C6: building a hook specification succeeds exactly when historic and
firstresult are not both requested; the historic-firstresult combination
is the configuration error of `setattr_hookspec_opts`. -/
theorem c6_historic_firstresult (firstresult historic : Bool) :
    isOkE (setattr_hookspec_opts firstresult historic) = !(historic && firstresult) := by
  cases firstresult <;> cases historic <;> rfl

/-- C9: a sequence of additions leaves the caller on the legacy
dispatcher exactly when it was already there or some added implementation
declares a `__multicall__` parameter; additions without that name never
change the flag, and once set it is never cleared. -/
theorem c9_legacy_multicall_switch (c : HookCaller) (impls : List HookImpl) :
    (impls.foldl addHookimpl c).multicall_legacy
      = (c.multicall_legacy
          || impls.any (fun i => decide ("__multicall__" ∈ i.argnames))) := by
  induction impls generalizing c with
  | nil => simp
  | cons i is ih =>
    rw [List.foldl_cons, ih, addHookimpl_multicall_legacy]
    simp [Bool.or_assoc]

/-- C2 is false as stated: on a caller where plugin 1 owns both a wrapper
entry and a non-wrapper entry, the source removes the wrapper entry (it
searches the wrapper chain first), while the claimed
nonWrappers-before-wrappers order would remove the non-wrapper entry; the
two outcomes differ. -/
theorem c2_counterexample :
    okCaller (removePlugin cexC2 (some 1)) = some cexC2res
    ∧ okCaller (removePluginSpecOrder cexC2 (some 1))
        = some { cexC2 with nonwrappers := [] }
    ∧ cexC2res ≠ { cexC2 with nonwrappers := [] } := by decide

/-- C2 (amended): removal deletes the first entry whose owning-plugin
identity matches, searching the wrapper chain before the non-wrapper
chain; it errors exactly when neither chain holds a matching entry, and
the relative order of every remaining entry is unchanged. -/
theorem c2_remove_behavior (c : HookCaller) (p : Option Nat) :
    (isOkE (removePlugin c p) = false
      ↔ ((∀ x ∈ c.wrappers, x.plugin ≠ p) ∧ (∀ x ∈ c.nonwrappers, x.plugin ≠ p)))
    ∧ ∀ c2, removePlugin c p = .ok c2 →
        ((∃ pre m post, c.wrappers = pre ++ m :: post ∧ m.plugin = p
            ∧ (∀ x ∈ pre, x.plugin ≠ p) ∧ c2.wrappers = pre ++ post
            ∧ c2.nonwrappers = c.nonwrappers)
         ∨ ((∀ x ∈ c.wrappers, x.plugin ≠ p)
            ∧ ∃ pre m post, c.nonwrappers = pre ++ m :: post ∧ m.plugin = p
                ∧ (∀ x ∈ pre, x.plugin ≠ p) ∧ c2.nonwrappers = pre ++ post
                ∧ c2.wrappers = c.wrappers)) := by
  rcases hw : removeFirst p c.wrappers with _ | ws
  · rcases hn : removeFirst p c.nonwrappers with _ | ns
    · constructor
      · simp only [removePlugin, hw, hn, isOkE]
        constructor
        · intro _
          exact ⟨(removeFirst_none_iff p c.wrappers).mp hw,
                 (removeFirst_none_iff p c.nonwrappers).mp hn⟩
        · intro _; trivial
      · intro c2 h
        simp only [removePlugin, hw, hn] at h
        exact Except.noConfusion h
    · constructor
      · simp only [removePlugin, hw, hn, isOkE]
        constructor
        · intro h; exact absurd h (by simp)
        · intro h
          exfalso
          obtain ⟨pre, m, post, hsplit, hm, -, -⟩ :=
            removeFirst_some_decomp p c.nonwrappers ns hn
          exact (h.2 m (by rw [hsplit]; simp)) hm
      · intro c2 h
        simp only [removePlugin, hw, hn] at h
        injection h with h2
        right
        obtain ⟨pre, m, post, hsplit, hm, hpre, hns⟩ :=
          removeFirst_some_decomp p c.nonwrappers ns hn
        refine ⟨(removeFirst_none_iff p c.wrappers).mp hw,
          pre, m, post, hsplit, hm, hpre, ?_, ?_⟩
        · rw [← h2]; exact hns
        · rw [← h2]
  · constructor
    · simp only [removePlugin, hw, isOkE]
      constructor
      · intro h; exact absurd h (by simp)
      · intro h
        exfalso
        obtain ⟨pre, m, post, hsplit, hm, -, -⟩ :=
          removeFirst_some_decomp p c.wrappers ws hw
        exact (h.1 m (by rw [hsplit]; simp)) hm
    · intro c2 h
      simp only [removePlugin, hw] at h
      injection h with h2
      left
      obtain ⟨pre, m, post, hsplit, hm, hpre, hws⟩ :=
        removeFirst_some_decomp p c.wrappers ws hw
      refine ⟨pre, m, post, hsplit, hm, hpre, ?_, ?_⟩
      · rw [← h2]; exact hws
      · rw [← h2]

/-- Witness for `c2_remove_behavior`: on `cexC2` the removal succeeds and
takes the wrapper-chain branch of the disjunction. -/
theorem c2_remove_behavior_witness :
    (∃ pre m post, cexC2.wrappers = pre ++ m :: post ∧ m.plugin = some 1
        ∧ (∀ x ∈ pre, x.plugin ≠ some 1) ∧ cexC2res.wrappers = pre ++ post
        ∧ cexC2res.nonwrappers = cexC2.nonwrappers)
    ∨ ((∀ x ∈ cexC2.wrappers, x.plugin ≠ some 1)
        ∧ ∃ pre m post, cexC2.nonwrappers = pre ++ m :: post ∧ m.plugin = some 1
            ∧ (∀ x ∈ pre, x.plugin ≠ some 1) ∧ cexC2res.nonwrappers = pre ++ post
            ∧ cexC2res.wrappers = cexC2.wrappers) :=
  (c2_remove_behavior cexC2 (some 1)).2 cexC2res rfl

theorem removeFirst_counts (p : Option Nat) (l l2 : List HookImpl)
    (h : removeFirst p l = some l2) :
    l2.length + 1 = l.length
    ∧ l2.countP (fun x => decide (x.plugin = p)) + 1
        = l.countP (fun x => decide (x.plugin = p))
    ∧ l2.countP (fun x => !decide (x.plugin = p))
        = l.countP (fun x => !decide (x.plugin = p)) := by
  obtain ⟨pre, m, post, hl, hm, hpre, hl2⟩ := removeFirst_some_decomp p l l2 h
  subst hl
  subst hl2
  refine ⟨?_, ?_, ?_⟩ <;>
    simp [List.countP_append, List.countP_cons, hm] <;> omega

/-- C10: a successful removal deletes exactly one entry in total: the
combined chain length drops by one, the count of entries owned by the
removed plugin drops by exactly one, and entries owned by anyone else are
all kept. -/
theorem c10_remove_at_most_one (c : HookCaller) (p : Option Nat) (c2 : HookCaller)
    (h : removePlugin c p = .ok c2) :
    c2.wrappers.length + c2.nonwrappers.length + 1
      = c.wrappers.length + c.nonwrappers.length
    ∧ c2.wrappers.countP (fun x => decide (x.plugin = p))
        + c2.nonwrappers.countP (fun x => decide (x.plugin = p)) + 1
      = c.wrappers.countP (fun x => decide (x.plugin = p))
        + c.nonwrappers.countP (fun x => decide (x.plugin = p))
    ∧ c2.wrappers.countP (fun x => !decide (x.plugin = p))
        + c2.nonwrappers.countP (fun x => !decide (x.plugin = p))
      = c.wrappers.countP (fun x => !decide (x.plugin = p))
        + c.nonwrappers.countP (fun x => !decide (x.plugin = p)) := by
  rcases hw : removeFirst p c.wrappers with _ | ws
  · rcases hn : removeFirst p c.nonwrappers with _ | ns
    · simp only [removePlugin, hw, hn] at h
      exact Except.noConfusion h
    · simp only [removePlugin, hw, hn] at h
      injection h with h2
      obtain ⟨hL, hM, hN⟩ := removeFirst_counts p c.nonwrappers ns hn
      rw [← h2]
      refine ⟨by simp; omega, by simp; omega, by simp; omega⟩
  · simp only [removePlugin, hw] at h
    injection h with h2
    obtain ⟨hL, hM, hN⟩ := removeFirst_counts p c.wrappers ws hw
    rw [← h2]
    refine ⟨by simp; omega, by simp; omega, by simp; omega⟩

/-- Witness for `c10_remove_at_most_one` on a caller where plugin 2 owns
two non-wrapper entries: exactly one is removed, the other is kept. -/
theorem c10_remove_at_most_one_witness :
    cC10r.wrappers.length + cC10r.nonwrappers.length + 1
      = cC10.wrappers.length + cC10.nonwrappers.length
    ∧ cC10r.wrappers.countP (fun x => decide (x.plugin = some 2))
        + cC10r.nonwrappers.countP (fun x => decide (x.plugin = some 2)) + 1
      = cC10.wrappers.countP (fun x => decide (x.plugin = some 2))
        + cC10.nonwrappers.countP (fun x => decide (x.plugin = some 2))
    ∧ cC10r.wrappers.countP (fun x => !decide (x.plugin = some 2))
        + cC10r.nonwrappers.countP (fun x => !decide (x.plugin = some 2))
      = cC10.wrappers.countP (fun x => !decide (x.plugin = some 2))
        + cC10.nonwrappers.countP (fun x => !decide (x.plugin = some 2)) :=
  c10_remove_at_most_one cC10 (some 2) cC10r rfl

/-- C5 is false as stated: an implementation with tryfirst and trylast
both set is accepted into the chain with no configuration error. -/
theorem c5_counterexample :
    (addHookimpl (emptyCaller "h") bothImpl).nonwrappers = [bothImpl]
    ∧ bothImpl.tryfirst = true ∧ bothImpl.trylast = true := by decide

/-- C5 (amended): an implementation carrying both priority flags is
accepted without any error and inserted at the front of its chain (the
trylast branch is tested first); the source performs no
flag-exclusivity validation. -/
theorem c5_both_flags_accepted (c : HookCaller) (impl : HookImpl)
    (h1 : impl.tryfirst = true) (h2 : impl.trylast = true) :
    (impl.hookwrapper = false →
      (addHookimpl c impl).nonwrappers = impl :: c.nonwrappers)
    ∧ (impl.hookwrapper = true →
      (addHookimpl c impl).wrappers = impl :: c.wrappers) := by
  constructor
  · intro hw
    rw [addHookimpl_nonwrappers]
    simp [hw, insertMethod, h2]
  · intro hw
    rw [addHookimpl_wrappers]
    simp [hw, insertMethod, h2]

/-- Witness for `c5_both_flags_accepted` on the concrete both-flag
implementation. -/
theorem c5_both_flags_accepted_witness :
    bothImpl.tryfirst = true ∧ bothImpl.trylast = true
    ∧ (addHookimpl (emptyCaller "h") bothImpl).nonwrappers = [bothImpl] :=
  ⟨rfl, rfl, by rw [(c5_both_flags_accepted (emptyCaller "h") bothImpl rfl rfl).1 rfl]; rfl⟩

/-- C4: adding a new implementation to a historic caller replays every
recorded call, in recording order, against that single implementation
alone, invokes the stored result callback exactly once per non-absent
result the implementation produces, and appends nothing to the call
history. -/
theorem c4_history_replay (env : Env) (c : HookCaller) (method : HookImpl)
    (hist : List (Kwargs × Option Nat))
    (hh : c.call_history = some hist)
    (hw : method.hookwrapper = false)
    (hok : hist.all
      (fun e => isOkE (env method.function (argFilter method e.1))) = true) :
    (addImplementation env c method).1 = .ok (replayEvents env method hist)
    ∧ (addImplementation env c method).2.call_history = c.call_history := by
  have h2 : (addHookimpl c method).call_history = some hist := by
    rw [addHookimpl_call_history, hh]
  constructor
  · simp only [addImplementation, maybe_apply_history, h2]
    have hspec := maybeApplyHistoryGo_spec env method hw hist []
      (fun e he => by simpa using List.all_eq_true.mp hok e he)
    simpa using hspec
  · simp only [addImplementation, maybe_apply_history, h2]
    exact hh.symm

/-- Witness for `c4_history_replay`: replaying the recorded call with
kwargs `x = 1` against the doubling implementation invokes callback 5
exactly once, with value 2, and leaves the history as it was. -/
theorem c4_history_replay_witness :
    cC4.call_history = some histC4
    ∧ implC4.hookwrapper = false
    ∧ histC4.all
        (fun e => isOkE (envC4 implC4.function (argFilter implC4 e.1))) = true
    ∧ (addImplementation envC4 cC4 implC4).1 = .ok [(5, 2)]
    ∧ (addImplementation envC4 cC4 implC4).2.call_history = cC4.call_history := by
  have h := c4_history_replay envC4 cC4 implC4 histC4 rfl rfl (by decide)
  refine ⟨rfl, rfl, by decide, ?_, h.2⟩
  rw [h.1]
  rfl

/-- C7: binding a specification is one-shot: it succeeds exactly when no
specification is bound yet, a successful binding marks the caller bound,
and a successful historic binding creates the initially empty call
history. -/
theorem c7_one_shot_binding (c : HookCaller) (opts : HookspecOpts) :
    (isOkE (set_specification c opts) = true ↔ c.spec_bound = false)
    ∧ ∀ c2, set_specification c opts = .ok c2 →
        c2.spec_bound = true
        ∧ (opts.historic = true → c2.call_history = some []) := by
  unfold set_specification
  cases hb : c.spec_bound
  · constructor
    · simp [isOkE]
    · intro c2 h
      rw [if_neg (by simp)] at h
      injection h with h2
      constructor
      · rw [← h2]
      · intro hh
        rw [← h2]
        simp [hh]
  · constructor
    · simp [isOkE]
    · intro c2 h
      rw [if_pos rfl] at h
      exact Except.noConfusion h

/-- Witness for `c7_one_shot_binding`: binding a historic specification
onto a fresh caller succeeds and creates the empty history, and a second
binding attempt on the bound caller fails. -/
theorem c7_one_shot_binding_witness :
    isOkE (set_specification (emptyCaller "h") histOpts) = true
    ∧ isOkE (set_specification boundFresh histOpts) = false
    ∧ boundFresh.spec_bound = true
    ∧ boundFresh.call_history = some [] := by
  have h1 := c7_one_shot_binding (emptyCaller "h") histOpts
  have h2 := c7_one_shot_binding boundFresh histOpts
  refine ⟨h1.1.mpr rfl, ?_, rfl, ?_⟩
  · cases hx : isOkE (set_specification boundFresh histOpts)
    · rfl
    · exact absurd (h2.1.mp hx) (by decide)
  · exact ((h1.2 boundFresh rfl).2 rfl)

/-- C8: call_historic appends the recorded pair to the call history
before dispatching, so the call stays recorded whatever the dispatch
outcome, including when an implementation raises. -/
theorem c8_recorded_before_dispatch (env : Env) (c : HookCaller)
    (proc : Option Nat) (kwargs : Option Kwargs)
    (hist : List (Kwargs × Option Nat))
    (hh : c.call_history = some hist) :
    (call_historic env c proc kwargs).2.call_history
      = some (hist ++ [(kwargs.getD [], proc)]) := by
  unfold call_historic
  rw [hh]
  rcases multicall env (c.nonwrappers ++ c.wrappers) (kwargs.getD []) with e | res
  · rfl
  · cases proc <;> rfl

/-- Witness for `c8_recorded_before_dispatch`: with a dispatcher that
raises, the call is still recorded while the dispatch reports the
failure. -/
theorem c8_recorded_before_dispatch_witness :
    cC8.call_history = some []
    ∧ (call_historic envRaise cC8 (some 3) (some [("a", 5)])).2.call_history
        = some [([("a", 5)], some 3)]
    ∧ isOkE (call_historic envRaise cC8 (some 3) (some [("a", 5)])).1 = false := by
  have h := c8_recorded_before_dispatch envRaise cC8 (some 3) (some [("a", 5)]) [] rfl
  exact ⟨rfl, by rw [h]; rfl, by decide⟩
